import Mathlib

/-!
# Verification of the Steam Game Playtime Tracker core

Shallow embedding of the playtime-accounting engine:
`src/steam/process_watcher.py` (ProcessWatcher: `tick`, `_record`, `_load`,
`_save`, `__init__`) and `src/utils/utils.py` (`format_playtime`).

Modelling conventions:
* Python dicts become association lists `List (String × α)` with
  first-match lookup (`alookup`), in-place update / append-on-new-key
  (`aset`), matching CPython dict semantics (unique keys, insertion order).
* Time is modelled in whole seconds as `Nat`; `time.time()` at a tick is a
  parameter `now`. `datetime.fromtimestamp(·).strftime("%Y-%m-%d %H:%M:%S")`
  and `datetime.now().strftime("%Y-%m-%d")` are the parameters
  `fmtTs`, `fmtDate : Nat → String` (pure functions of the instant).
* A Python `KeyError` escaping a function is `Option.none`.
* The process scan of a tick is the list of executable filenames of the
  processes whose executable path was obtainable (the source silently skips
  the others before any matching happens); `tick` lowercases each, as the
  source does with `Path(proc_exe).name.lower()`.
-/

namespace SteamTracker

/-- First-match association-list lookup, the semantics of `d[k]` /
`k in d` on a Python dict (keys are unique there, so first match is the
only match). -/
def alookup {α : Type} : List (String × α) → String → Option α
  | [], _ => none
  | (k, v) :: t, key => if k = key then some v else alookup t key

/-- `d[k] = v` on a Python dict: replace the value in place if the key is
present, else append the new binding at the end (insertion order). -/
def aset {α : Type} : List (String × α) → String → α → List (String × α)
  | [], k, v => [(k, v)]
  | (k', v') :: t, k, v =>
    if k' = k then (k, v) :: t else (k', v') :: aset t k v

/-- One value of the catalog built by `scan_steam_games`
(`src/steam/game_scanner.py`): `{"name": ..., "appid": ..., "exe_path": ...}`,
keyed by lowercase executable filename. -/
structure CatalogEntry where
  name : String
  appid : String
  exe_path : String
deriving DecidableEq, Repr

/-- `self.games`: lowercase exe filename → catalog entry. -/
abbrev Catalog := List (String × CatalogEntry)

/-- One per-day per-game aggregate in `playtime.json`:
`{"total": ..., "last_open": ..., "last_close": ...}`. -/
structure GameRecord where
  total : Int
  last_open : Option String
  last_close : Option String
deriving DecidableEq, Repr

/-- Game display name → record, the value under one date key. -/
abbrev DayMap := List (String × GameRecord)

/-- The playtime document: date string → day map. -/
abbrev Doc := List (String × DayMap)

/-! ## Duration formatter (`format_playtime`, src/utils/utils.py) -/

/-- A Python argument to `format_playtime`: either an `int` or any other
value (the `isinstance(seconds, int)` check only distinguishes these). -/
inductive PyTime
  | int (n : Int)
  | notInt
deriving DecidableEq, Repr

/-- `format_playtime` from `src/utils/utils.py`, line for line:
non-`int` or negative input yields `"0s"`; otherwise decompose into
`h`/`m`/`s` and print with seconds omitted when zero (except the pure-seconds
case). -/
def format_playtime : PyTime → String
  | PyTime.notInt => "0s"
  | PyTime.int n =>
    if n < 0 then "0s"
    else
      let seconds := n.toNat
      let hours := seconds / 3600
      let remaining_seconds := seconds % 3600
      let minutes := remaining_seconds / 60
      let secs := remaining_seconds % 60
      if hours > 0 then
        if secs == 0 then toString hours ++ "h" ++ toString minutes ++ "m"
        else toString hours ++ "h" ++ toString minutes ++ "m" ++ toString secs ++ "s"
      else if minutes > 0 then
        if secs == 0 then toString minutes ++ "m"
        else toString minutes ++ "m" ++ toString secs ++ "s"
      else toString secs ++ "s"

/-- The formatter as the spec words it (C8): invalid input gives `"0s"`;
otherwise a base string by the hours/minutes/seconds priority rule, with
`"{secs}s"` appended only when `secs ≠ 0` in the hour and minute cases. -/
def format_spec : PyTime → String
  | PyTime.notInt => "0s"
  | PyTime.int n =>
    if n < 0 then "0s"
    else
      let seconds := n.toNat
      let hours := seconds / 3600
      let minutes := seconds % 3600 / 60
      let secs := seconds % 60
      if hours > 0 then
        toString hours ++ "h" ++ toString minutes ++ "m" ++
          (if secs ≠ 0 then toString secs ++ "s" else "")
      else if minutes > 0 then
        toString minutes ++ "m" ++ (if secs ≠ 0 then toString secs ++ "s" else "")
      else toString secs ++ "s"

/-! ## Playtime store merge (`ProcessWatcher._record`) -/

/-- Lookup of one (date, game) aggregate in the document:
`data[d][q]` when both keys exist. -/
def alookup2 (doc : Doc) (d q : String) : Option GameRecord :=
  (alookup doc d).bind fun m => alookup m q

/-- The record `_record` starts from: the existing `data[d][q]` when present,
else the default `{"total": 0, "last_open": None, "last_close": None}`
installed by the two `setdefault` calls. -/
def prevRecord (doc : Doc) (d q : String) : GameRecord :=
  (alookup ((alookup doc d).getD []) q).getD
    { total := 0, last_open := none, last_close := none }

/-- `ProcessWatcher._record` as a pure document transformer.
`self.games[exe]["name"]` raises `KeyError` when `exe` is not a catalog key
(`none` here); otherwise format the timestamps, bucket under the *current*
date `fmtDate now`, `setdefault` the day map and the game record, add the
duration to `total`, overwrite `last_open`/`last_close`, and save. -/
def record (games : Catalog) (fmtTs fmtDate : Nat → String)
    (exe : String) (start_ts : Nat) (duration : Nat) (now : Nat)
    (doc : Doc) : Option Doc :=
  match alookup games exe with
  | none => none
  | some g =>
    let start_str := fmtTs start_ts
    let end_str := fmtTs now
    let current_date := fmtDate now
    let dayMap := (alookup doc current_date).getD []
    let game_data := prevRecord doc current_date g.name
    let game_data' : GameRecord :=
      { total := game_data.total + (duration : Int),
        last_open := some start_str, last_close := some end_str }
    some (aset doc current_date (aset dayMap g.name game_data'))

/-! ## Store I/O (`ProcessWatcher._load`, `_save`, `__init__`)

`_load` wraps `json.loads(self.DATA_FILE.read_text(...))` in
`try/except Exception`: any failure of the read or of the parse is caught,
a warning is logged, and `{}` is returned.  The read is modelled by its
result (`Except` err on missing/unreadable file) and `json.loads` by a
parse function (`Except` err on empty or unparseable content); `_load`
itself returns a plain `Doc` — no error value in its type is how "never
raises to the caller" is rendered. -/

/-- `ProcessWatcher._load`: result document plus whether the warning branch
was taken. -/
def load (readRes : Except String String) (parse : String → Except String Doc) :
    Doc × Bool :=
  match readRes with
  | Except.error _ => ([], true)
  | Except.ok s =>
    match parse s with
    | Except.error _ => ([], true)
    | Except.ok d => (d, false)

/-- The possible outcomes of `Path.write_text` (open with truncation, then
write): full success; a failure before the file is touched (e.g. the open
itself is refused), leaving prior content; or a failure after the open has
truncated the file, leaving whatever prefix was flushed. -/
inductive WriteOutcome
  | ok
  | errBeforeWrite
  | errMidWrite (onDisk : String)
deriving DecidableEq, Repr

/-- `Path.write_text(content)` against a disk holding `prior`: the new disk
content and whether the call raised. -/
def writeText (prior : Option String) (content : String) :
    WriteOutcome → Option String × Bool
  | WriteOutcome.ok => (some content, false)
  | WriteOutcome.errBeforeWrite => (prior, true)
  | WriteOutcome.errMidWrite c => (some c, true)

/-- `ProcessWatcher._save`: `json.dumps` the document (`dumps` parameter)
and `write_text` it, with any exception caught and logged.  Result:
(disk content after the call, raised-to-caller, error-logged). -/
def save (dumps : Doc → String) (data : Doc) (prior : Option String)
    (o : WriteOutcome) : Option String × Bool × Bool :=
  let w := writeText prior (dumps data) o
  (w.1, false, w.2)

/-- The file-system state `ProcessWatcher.__init__` touches: whether the
`data` directory exists, and the content of `data/playtime.json` (if the
file exists). -/
structure StoreFS where
  dirExists : Bool
  file : Option String
deriving DecidableEq, Repr

/-- The store-initialization part of `ProcessWatcher.__init__`:
`DATA_FILE.parent.mkdir(exist_ok=True)`, then write `"{}"` only when
`DATA_FILE` does not exist. -/
def initStore (s : StoreFS) : StoreFS :=
  let s1 : StoreFS := { s with dirExists := true }
  match s1.file with
  | none => { s1 with file := some "{}" }
  | some _ => s1

/-! ## Process watcher tick (`ProcessWatcher.tick`)

A tick's process scan is a list of executable filenames (the processes whose
`exe` path was available; the source silently skips the rest before any
matching).  `tick` lowercases each name, matches it against the catalog,
detects starts, then walks `self.running` and records stops.  Events stand
for the log lines / `_record` invocations of the source. -/

/-- `self.running`: lowercase exe filename → start timestamp. -/
abbrev Running := List (String × Nat)

/-- The observable events of one tick: the "Detected process startup" log
(plus insertion into `running`) and the "Detected process shutdown" path
(removal, duration computation and `_record` call). -/
inductive Event
  | started (exe : String)
  | stopped (exe : String) (start_ts : Nat) (duration : Nat)
deriving DecidableEq, Repr

/-- `str.lower()` as `tick` applies it to executable filenames: ASCII case
folding of every character (the relevant case for `.exe` names), written as
an explicit character map so that it evaluates by kernel reduction. -/
def strLower (s : String) : String := String.mk (s.data.map Char.toLower)

/-- `now_running.add(exe)`: Python set insertion. -/
def nrAdd (nowRunning : List String) (e : String) : List String :=
  if e ∈ nowRunning then nowRunning else e :: nowRunning

/-- Prefix a start event onto a scan-loop result. -/
def addStart (e : String) (r : List String × Running × List Event) :
    List String × Running × List Event :=
  (r.1, r.2.1, Event.started e :: r.2.2)

/-- The first loop of `tick`: for each scanned process, lowercase its exe
filename; on a catalog match add it to `now_running` and, when it is not yet
in `running`, append it to `running` with the current time and log a start.
Returns (`now_running`, updated `running`, start events in order). -/
def scanLoop (games : Catalog) (now : Nat) :
    List String → List String → Running → List String × Running × List Event
  | [], nowRunning, running => (nowRunning, running, [])
  | p :: rest, nowRunning, running =>
    if (alookup games (strLower p)).isSome = true then
      if alookup running (strLower p) = none then
        addStart (strLower p)
          (scanLoop games now rest (nrAdd nowRunning (strLower p))
            (running ++ [((strLower p), now)]))
      else scanLoop games now rest (nrAdd nowRunning (strLower p)) running
    else scanLoop games now rest nowRunning running

/-- The second loop of `tick`: walk `list(self.running.keys())`; every
entry absent from `now_running` is popped, its duration computed as
`now - start`, and `_record` is invoked (threading the store document).
`none` models the `KeyError` `_record` raises on a catalog miss. -/
def stopLoop (games : Catalog) (fmtTs fmtDate : Nat → String) (now : Nat)
    (nowRunning : List String) :
    Running → Doc → Option (Running × List Event × Doc)
  | [], doc => some ([], [], doc)
  | (exe, ts) :: rest, doc =>
    if exe ∈ nowRunning then
      match stopLoop games fmtTs fmtDate now nowRunning rest doc with
      | none => none
      | some r => some ((exe, ts) :: r.1, r.2.1, r.2.2)
    else
      match record games fmtTs fmtDate exe ts (now - ts) now doc with
      | none => none
      | some doc' =>
        match stopLoop games fmtTs fmtDate now nowRunning rest doc' with
        | none => none
        | some r => some (r.1, Event.stopped exe ts (now - ts) :: r.2.1, r.2.2)

/-- `ProcessWatcher.tick`: scan, then detect shutdowns.  Result: updated
`running`, the tick's events (starts before stops, as emitted), and the
store document after the tick's `_record` calls. -/
def tick (games : Catalog) (fmtTs fmtDate : Nat → String)
    (scan : List String) (now : Nat) (running : Running) (doc : Doc) :
    Option (Running × List Event × Doc) :=
  match stopLoop games fmtTs fmtDate now (scanLoop games now scan [] running).1
      (scanLoop games now scan [] running).2.1 doc with
  | none => none
  | some r => some (r.1, (scanLoop games now scan [] running).2.2 ++ r.2.1, r.2.2)

/-- A sequence of ticks, as the monitoring loop of `main.py` issues them:
each tick's scan and clock, threading `running` and the document. -/
def runTicks (games : Catalog) (fmtTs fmtDate : Nat → String) :
    List (List String × Nat) → Running → Doc → Option (Running × List Event × Doc)
  | [], running, doc => some (running, [], doc)
  | (scan, now) :: rest, running, doc =>
    match tick games fmtTs fmtDate scan now running doc with
    | none => none
    | some res =>
      match runTicks games fmtTs fmtDate rest res.1 res.2.2 with
      | none => none
      | some fin => some (fin.1, res.2.1 ++ fin.2.1, fin.2.2)

/-- The running-sets a watcher can be in: `running = {}` at construction,
then whatever successful ticks produce. -/
inductive Reachable (games : Catalog) (fmtTs fmtDate : Nat → String) : Running → Prop
  | init : Reachable games fmtTs fmtDate []
  | step {r : Running} {scan : List String} {now : Nat} {doc : Doc}
      {res : Running × List Event × Doc} :
      Reachable games fmtTs fmtDate r →
      tick games fmtTs fmtDate scan now r doc = some res →
      Reachable games fmtTs fmtDate res.1

/-! ## Concrete instances used to exercise the theorems -/

/-- A parse stand-in for `json.loads` that fails on everything — enough to
exercise the failure branches of `_load`. -/
def parseFailEx : String → Except String Doc := fun _ => Except.error "invalid json"

/-- A serializer stand-in for `json.dumps`. -/
def dumpsEx : Doc → String := fun _ => "{}"

/-- A catalog entry in the shape `scan_steam_games` produces. -/
def entryEx : CatalogEntry :=
  { name := "Game", appid := "1", exe_path := "/x/game.exe" }

/-- A one-game catalog. -/
def gamesEx : Catalog := [("game.exe", entryEx)]

/-- A concrete stand-in for `strftime("%Y-%m-%d %H:%M:%S")`: any injective
rendering of the instant. -/
def fmtTsEx : Nat → String := fun t => toString t

/-- A concrete stand-in for `strftime("%Y-%m-%d")`: the calendar day index
(midnight boundary every 86400 s). -/
def fmtDateEx : Nat → String := fun t => toString (t / 86400)

/-- A document that already holds an unrelated record. -/
def docEx : Doc := [("1970-01-01", [("Other", ⟨7, none, none⟩)])]

end SteamTracker

namespace SteamTracker

theorem alookup_aset_self {α : Type} (l : List (String × α)) (k : String) (v : α) :
    alookup (aset l k v) k = some v := by
  induction l with
  | nil => simp [aset, alookup]
  | cons p t ih =>
    obtain ⟨k', v'⟩ := p
    by_cases h : k' = k
    · simp [aset, alookup, h]
    · simp [aset, alookup, h, ih]

theorem alookup_aset_ne {α : Type} (l : List (String × α)) {k k' : String} (v : α)
    (h : k' ≠ k) : alookup (aset l k v) k' = alookup l k' := by
  induction l with
  | nil =>
    simp only [aset, alookup]
    rw [if_neg (fun hh => h (Eq.symm hh))]
  | cons p t ih =>
    obtain ⟨k₀, v₀⟩ := p
    simp only [aset]
    by_cases h0 : k₀ = k
    · subst h0
      rw [if_pos rfl]
      simp only [alookup]
      rw [if_neg (fun hh => h (Eq.symm hh)), if_neg (fun hh => h (Eq.symm hh))]
    · rw [if_neg h0]
      simp only [alookup]
      by_cases h1 : k₀ = k'
      · rw [if_pos h1, if_pos h1]
      · rw [if_neg h1, if_neg h1, ih]

theorem alookup2_eq (doc : Doc) (d q : String) :
    alookup2 doc d q = alookup ((alookup doc d).getD []) q := by
  unfold alookup2
  cases alookup doc d <;> rfl

theorem prevRecord_eq (doc : Doc) (d q : String) :
    prevRecord doc d q =
      (alookup2 doc d q).getD { total := 0, last_open := none, last_close := none } := by
  rw [prevRecord, alookup2_eq]

theorem prevRecord_of_alookup2 {doc : Doc} {d q : String} {r : GameRecord}
    (h : alookup2 doc d q = some r) : prevRecord doc d q = r := by
  rw [prevRecord_eq, h, Option.getD_some]

/-- When the catalog lookup hits, `_record` computes exactly this
document. -/
theorem record_eq_of_lookup {games : Catalog} {e : String} {g : CatalogEntry}
    (fmtTs fmtDate : Nat → String) (s dur n : Nat) (doc : Doc)
    (h : alookup games e = some g) :
    record games fmtTs fmtDate e s dur n doc =
      some (aset doc (fmtDate n)
        (aset ((alookup doc (fmtDate n)).getD []) g.name
          { total := (prevRecord doc (fmtDate n) g.name).total + (dur : Int),
            last_open := some (fmtTs s), last_close := some (fmtTs n) })) := by
  unfold record
  rw [h]

/-- Master description of one `_record` call on a document: the result
exists (catalog hit), the (current date, display name) cell holds the merged
record, and every other date key and every other game cell of the current
date is untouched. -/
theorem record_spec {games : Catalog} (fmtTs fmtDate : Nat → String) {e : String}
    {g : CatalogEntry} (s dur n : Nat) (doc : Doc)
    (h : alookup games e = some g) :
    ∃ doc', record games fmtTs fmtDate e s dur n doc = some doc' ∧
      alookup2 doc' (fmtDate n) g.name =
        some { total := (prevRecord doc (fmtDate n) g.name).total + (dur : Int),
               last_open := some (fmtTs s), last_close := some (fmtTs n) } ∧
      (∀ d, d ≠ fmtDate n → alookup doc' d = alookup doc d) ∧
      (∀ q, q ≠ g.name → alookup2 doc' (fmtDate n) q = alookup2 doc (fmtDate n) q) := by
  refine ⟨_, record_eq_of_lookup fmtTs fmtDate s dur n doc h, ?_, ?_, ?_⟩
  · rw [alookup2_eq, alookup_aset_self, Option.getD_some, alookup_aset_self]
  · intro d hd
    exact alookup_aset_ne _ _ hd
  · intro q hq
    rw [alookup2_eq, alookup2_eq, alookup_aset_self, Option.getD_some,
      alookup_aset_ne _ _ hq]

theorem alookup_append_of_some {α : Type} {l₁ : List (String × α)} {e : String}
    {v : α} (h : alookup l₁ e = some v) (l₂ : List (String × α)) :
    alookup (l₁ ++ l₂) e = some v := by
  induction l₁ with
  | nil => exact absurd h (by simp [alookup])
  | cons p t ih =>
    obtain ⟨k, w⟩ := p
    simp only [alookup, List.cons_append] at h ⊢
    by_cases hk : k = e
    · rw [if_pos hk] at h ⊢
      exact h
    · rw [if_neg hk] at h ⊢
      exact ih h

theorem alookup_append_of_none {α : Type} {l₁ : List (String × α)} {e : String}
    (h : alookup l₁ e = none) (l₂ : List (String × α)) :
    alookup (l₁ ++ l₂) e = alookup l₂ e := by
  induction l₁ with
  | nil => rfl
  | cons p t ih =>
    obtain ⟨k, w⟩ := p
    simp only [alookup, List.cons_append] at h ⊢
    by_cases hk : k = e
    · rw [if_pos hk] at h
      exact absurd h (by simp)
    · rw [if_neg hk] at h ⊢
      exact ih h

theorem alookup_append_single_ne {α : Type} (l : List (String × α)) {e k : String}
    (v : α) (h : e ≠ k) : alookup (l ++ [(k, v)]) e = alookup l e := by
  cases hl : alookup l e with
  | some w => exact alookup_append_of_some hl _
  | none =>
    rw [alookup_append_of_none hl]
    simp only [alookup]
    rw [if_neg (fun hh => h (Eq.symm hh))]

theorem alookup_append_single_self {α : Type} {l : List (String × α)} {k : String}
    (v : α) (h : alookup l k = none) : alookup (l ++ [(k, v)]) k = some v := by
  rw [alookup_append_of_none h]
  simp [alookup]

theorem alookup_mem {α : Type} {l : List (String × α)} {e : String} {v : α}
    (h : alookup l e = some v) : (e, v) ∈ l := by
  induction l with
  | nil => exact absurd h (by simp [alookup])
  | cons p t ih =>
    obtain ⟨k, w⟩ := p
    simp only [alookup] at h
    by_cases hk : k = e
    · rw [if_pos hk] at h
      subst hk
      obtain rfl : w = v := by injection h
      exact List.mem_cons_self _ _
    · rw [if_neg hk] at h
      exact List.mem_cons_of_mem _ (ih h)

theorem alookup_eq_none {α : Type} {l : List (String × α)} {e : String} :
    alookup l e = none ↔ ∀ p ∈ l, p.1 ≠ e := by
  induction l with
  | nil => simp [alookup]
  | cons p t ih =>
    obtain ⟨k, w⟩ := p
    by_cases hk : k = e
    · subst hk
      simp [alookup]
    · simp [alookup, hk, ih, List.forall_mem_cons]

theorem alookup_of_mem_nodup {α : Type} {l : List (String × α)} {e : String} {v : α}
    (hnd : (l.map Prod.fst).Nodup) (h : (e, v) ∈ l) : alookup l e = some v := by
  induction l with
  | nil => simp at h
  | cons p t ih =>
    obtain ⟨k, w⟩ := p
    rw [List.map_cons, List.nodup_cons] at hnd
    rcases List.mem_cons.mp h with h1 | h1
    · have he : e = k := congrArg Prod.fst h1
      have hv : v = w := congrArg Prod.snd h1
      subst he
      subst hv
      simp [alookup]
    · by_cases hk : k = e
      · subst hk
        exact absurd (List.mem_map.mpr ⟨(k, v), h1, rfl⟩) hnd.1
      · simp only [alookup]
        rw [if_neg hk]
        exact ih hnd.2 h1

theorem alookup_filter_pos {α : Type} (l : List (String × α)) (pred : String → Bool)
    {e : String} (h : pred e = true) :
    alookup (l.filter fun p => pred p.1) e = alookup l e := by
  induction l with
  | nil => rfl
  | cons p t ih =>
    obtain ⟨k, w⟩ := p
    rw [List.filter_cons]
    by_cases hk : k = e
    · subst hk
      rw [if_pos (by simpa using h)]
      simp [alookup]
    · by_cases hp : pred k = true
      · rw [if_pos (by simpa using hp)]
        simp only [alookup]
        rw [if_neg hk, if_neg hk, ih]
      · rw [if_neg (by simpa using hp), ih]
        simp only [alookup]
        rw [if_neg hk]

theorem alookup_filter_neg {α : Type} (l : List (String × α)) (pred : String → Bool)
    {e : String} (h : pred e = false) :
    alookup (l.filter fun p => pred p.1) e = none := by
  rw [alookup_eq_none]
  intro p hp hpe
  have hc := List.of_mem_filter hp
  rw [hpe, h] at hc
  exact absurd hc (by decide)

theorem mem_nrAdd_of_mem {nowR : List String} {e : String} (x : String)
    (h : e ∈ nowR) : e ∈ nrAdd nowR x := by
  unfold nrAdd
  by_cases hx : x ∈ nowR
  · rw [if_pos hx]
    exact h
  · rw [if_neg hx]
    exact List.mem_cons_of_mem _ h

theorem mem_nrAdd_self (nowR : List String) (x : String) : x ∈ nrAdd nowR x := by
  unfold nrAdd
  by_cases hx : x ∈ nowR
  · rw [if_pos hx]
    exact hx
  · rw [if_neg hx]
    exact List.mem_cons_self _ _

/-- An entry of `running` is never overwritten by the scan loop: its start
timestamp survives any number of scanned processes. -/
theorem scanLoop_preserved (games : Catalog) (now : Nat) (scan : List String) :
    ∀ (nowR : List String) (running : Running) {e : String} {t : Nat},
      alookup running e = some t →
      alookup (scanLoop games now scan nowR running).2.1 e = some t := by
  induction scan with
  | nil => intro nowR running e t h; exact h
  | cons p rest ih =>
    intro nowR running e t h
    simp only [scanLoop]
    by_cases h1 : (alookup games (strLower p)).isSome = true
    · rw [if_pos h1]
      by_cases h2 : alookup running (strLower p) = none
      · rw [if_pos h2]
        simp only [addStart]
        exact ih _ _ (alookup_append_of_some h _)
      · rw [if_neg h2]
        exact ih _ _ h
    · rw [if_neg h1]
      exact ih _ _ h

/-- A catalog-matched filename observed by the scan and absent from
`running` ends the scan bound to the current time. -/
theorem scanLoop_inserts (games : Catalog) (now : Nat) (scan : List String) :
    ∀ (nowR : List String) (running : Running) {e : String},
      (alookup games e).isSome = true →
      e ∈ scan.map strLower →
      alookup running e = none →
      alookup (scanLoop games now scan nowR running).2.1 e = some now := by
  induction scan with
  | nil => intro _ _ _ _ hmem _; simp at hmem
  | cons p rest ih =>
    intro nowR running e hg hmem h
    simp only [scanLoop]
    by_cases hpe : (strLower p) = e
    · have h1 : (alookup games (strLower p)).isSome = true := by rw [hpe]; exact hg
      have h2 : alookup running (strLower p) = none := by rw [hpe]; exact h
      rw [if_pos h1, if_pos h2]
      simp only [addStart]
      apply scanLoop_preserved
      rw [hpe]
      exact alookup_append_single_self now h
    · have hmem' : e ∈ rest.map strLower := by
        rw [List.map_cons] at hmem
        rcases List.mem_cons.mp hmem with hh | hh
        · exact absurd hh.symm hpe
        · exact hh
      by_cases h1 : (alookup games (strLower p)).isSome = true
      · rw [if_pos h1]
        by_cases h2 : alookup running (strLower p) = none
        · rw [if_pos h2]
          simp only [addStart]
          refine ih _ _ hg hmem' ?_
          rw [alookup_append_single_ne _ now (Ne.symm hpe)]
          exact h
        · rw [if_neg h2]
          exact ih _ _ hg hmem' h
      · rw [if_neg h1]
        exact ih _ _ hg hmem' h

/-- A filename already in `running` produces no start event in this scan. -/
theorem scanLoop_no_restart (games : Catalog) (now : Nat) (scan : List String) :
    ∀ (nowR : List String) (running : Running) {e : String},
      alookup running e ≠ none →
      Event.started e ∉ (scanLoop games now scan nowR running).2.2 := by
  induction scan with
  | nil => intro _ _ _ _ hmem; simp [scanLoop] at hmem
  | cons p rest ih =>
    intro nowR running e h
    simp only [scanLoop]
    by_cases h1 : (alookup games (strLower p)).isSome = true
    · rw [if_pos h1]
      by_cases h2 : alookup running (strLower p) = none
      · rw [if_pos h2]
        simp only [addStart]
        intro hmem
        rcases List.mem_cons.mp hmem with heq | hmem'
        · obtain rfl : e = (strLower p) := by cases heq; rfl
          exact h h2
        · obtain ⟨t, ht⟩ := Option.ne_none_iff_exists'.mp h
          exact ih _ _ (by rw [alookup_append_of_some ht]; simp) hmem'
      · rw [if_neg h2]
        exact ih _ _ h
    · rw [if_neg h1]
      exact ih _ _ h

/-- A catalog-matched filename observed by the scan while absent from
`running` produces exactly one start event in this scan. -/
theorem scanLoop_count_start (games : Catalog) (now : Nat) (scan : List String) :
    ∀ (nowR : List String) (running : Running) {e : String},
      (alookup games e).isSome = true →
      e ∈ scan.map strLower →
      alookup running e = none →
      ((scanLoop games now scan nowR running).2.2).count (Event.started e) = 1 := by
  induction scan with
  | nil => intro _ _ _ _ hmem _; simp at hmem
  | cons p rest ih =>
    intro nowR running e hg hmem h
    simp only [scanLoop]
    by_cases hpe : (strLower p) = e
    · have h1 : (alookup games (strLower p)).isSome = true := by rw [hpe]; exact hg
      have h2 : alookup running (strLower p) = none := by rw [hpe]; exact h
      rw [if_pos h1, if_pos h2]
      simp only [addStart]
      have hnotin : Event.started e ∉
          (scanLoop games now rest (nrAdd nowR (strLower p))
            (running ++ [((strLower p), now)])).2.2 := by
        apply scanLoop_no_restart
        rw [hpe, alookup_append_single_self now h]
        simp
      have hcons : Event.started (strLower p) = Event.started e := by rw [hpe]
      rw [hcons, List.count_cons_self, List.count_eq_zero.mpr hnotin]
    · have hmem' : e ∈ rest.map strLower := by
        rw [List.map_cons] at hmem
        rcases List.mem_cons.mp hmem with hh | hh
        · exact absurd hh.symm hpe
        · exact hh
      by_cases h1 : (alookup games (strLower p)).isSome = true
      · rw [if_pos h1]
        by_cases h2 : alookup running (strLower p) = none
        · rw [if_pos h2]
          simp only [addStart]
          rw [List.count_cons_of_ne (fun hh => hpe (by cases hh; rfl))]
          refine ih _ _ hg hmem' ?_
          rw [alookup_append_single_ne _ now (Ne.symm hpe)]
          exact h
        · rw [if_neg h2]
          exact ih _ _ hg hmem' h
      · rw [if_neg h1]
        exact ih _ _ hg hmem' h

/-- The scan loop only emits start events. -/
theorem scanLoop_events_started (games : Catalog) (now : Nat) (scan : List String) :
    ∀ (nowR : List String) (running : Running) {ev : Event},
      ev ∈ (scanLoop games now scan nowR running).2.2 → ∃ x, ev = Event.started x := by
  induction scan with
  | nil => intro _ _ _ hmem; simp [scanLoop] at hmem
  | cons p rest ih =>
    intro nowR running ev hmem
    simp only [scanLoop] at hmem
    by_cases h1 : (alookup games (strLower p)).isSome = true
    · rw [if_pos h1] at hmem
      by_cases h2 : alookup running (strLower p) = none
      · rw [if_pos h2] at hmem
        simp only [addStart] at hmem
        rcases List.mem_cons.mp hmem with heq | hmem'
        · exact ⟨(strLower p), heq⟩
        · exact ih _ _ hmem'
      · rw [if_neg h2] at hmem
        exact ih _ _ hmem
    · rw [if_neg h1] at hmem
      exact ih _ _ hmem

/-- `now_running` only grows during the scan. -/
theorem scanLoop_nowRunning_mono (games : Catalog) (now : Nat) (scan : List String) :
    ∀ (nowR : List String) (running : Running) {e : String},
      e ∈ nowR → e ∈ (scanLoop games now scan nowR running).1 := by
  induction scan with
  | nil => intro _ _ _ h; exact h
  | cons p rest ih =>
    intro nowR running e h
    simp only [scanLoop]
    by_cases h1 : (alookup games (strLower p)).isSome = true
    · rw [if_pos h1]
      by_cases h2 : alookup running (strLower p) = none
      · rw [if_pos h2]
        simp only [addStart]
        exact ih _ _ (mem_nrAdd_of_mem _ h)
      · rw [if_neg h2]
        exact ih _ _ (mem_nrAdd_of_mem _ h)
    · rw [if_neg h1]
      exact ih _ _ h

/-- Every catalog-matched filename observed by the scan ends up in
`now_running`. -/
theorem scanLoop_mem_nowRunning (games : Catalog) (now : Nat) (scan : List String) :
    ∀ (nowR : List String) (running : Running) {e : String},
      (alookup games e).isSome = true →
      e ∈ scan.map strLower →
      e ∈ (scanLoop games now scan nowR running).1 := by
  induction scan with
  | nil => intro _ _ _ _ hmem; simp at hmem
  | cons p rest ih =>
    intro nowR running e hg hmem
    simp only [scanLoop]
    by_cases hpe : (strLower p) = e
    · have h1 : (alookup games (strLower p)).isSome = true := by rw [hpe]; exact hg
      rw [if_pos h1]
      have hmemAdd : e ∈ nrAdd nowR (strLower p) := by
        rw [hpe]
        exact mem_nrAdd_self _ _
      by_cases h2 : alookup running (strLower p) = none
      · rw [if_pos h2]
        simp only [addStart]
        exact scanLoop_nowRunning_mono games now rest _ _ hmemAdd
      · rw [if_neg h2]
        exact scanLoop_nowRunning_mono games now rest _ _ hmemAdd
    · have hmem' : e ∈ rest.map strLower := by
        rw [List.map_cons] at hmem
        rcases List.mem_cons.mp hmem with hh | hh
        · exact absurd hh.symm hpe
        · exact hh
      by_cases h1 : (alookup games (strLower p)).isSome = true
      · rw [if_pos h1]
        by_cases h2 : alookup running (strLower p) = none
        · rw [if_pos h2]
          simp only [addStart]
          exact ih _ _ hg hmem'
        · rw [if_neg h2]
          exact ih _ _ hg hmem'
      · rw [if_neg h1]
        exact ih _ _ hg hmem'

/-- A filename not in the final `now_running` kept exactly its pre-scan
binding in `running` (in particular it was not inserted by this scan). -/
theorem scanLoop_alookup_of_not_seen (games : Catalog) (now : Nat) (scan : List String) :
    ∀ (nowR : List String) (running : Running) {e : String},
      e ∉ (scanLoop games now scan nowR running).1 →
      alookup (scanLoop games now scan nowR running).2.1 e = alookup running e := by
  induction scan with
  | nil => intro _ _ _ _; rfl
  | cons p rest ih =>
    intro nowR running e hnot
    simp only [scanLoop] at hnot ⊢
    by_cases h1 : (alookup games (strLower p)).isSome = true
    · rw [if_pos h1] at hnot ⊢
      by_cases h2 : alookup running (strLower p) = none
      · rw [if_pos h2] at hnot ⊢
        simp only [addStart] at hnot ⊢
        have hne : e ≠ (strLower p) := by
          intro hh
          subst hh
          exact hnot (scanLoop_nowRunning_mono games now rest _ _
            (mem_nrAdd_self nowR (strLower p)))
        rw [ih _ _ hnot, alookup_append_single_ne _ now hne]
      · rw [if_neg h2] at hnot ⊢
        exact ih _ _ hnot
    · rw [if_neg h1] at hnot ⊢
      exact ih _ _ hnot

/-- The scan loop preserves uniqueness of the `running` keys. -/
theorem scanLoop_nodup (games : Catalog) (now : Nat) (scan : List String) :
    ∀ (nowR : List String) (running : Running),
      (running.map Prod.fst).Nodup →
      ((scanLoop games now scan nowR running).2.1.map Prod.fst).Nodup := by
  induction scan with
  | nil => intro _ _ h; exact h
  | cons p rest ih =>
    intro nowR running hnd
    simp only [scanLoop]
    by_cases h1 : (alookup games (strLower p)).isSome = true
    · rw [if_pos h1]
      by_cases h2 : alookup running (strLower p) = none
      · rw [if_pos h2]
        simp only [addStart]
        refine ih _ _ ?_
        rw [List.map_append]
        refine List.Nodup.append hnd (List.nodup_singleton _) ?_
        intro a ha hb
        obtain rfl : a = (strLower p) := by simpa using hb
        obtain ⟨q, hq, hq1⟩ := List.mem_map.mp ha
        exact (alookup_eq_none.mp h2 q hq) hq1
      · rw [if_neg h2]
        exact ih _ _ hnd
    · rw [if_neg h1]
      exact ih _ _ hnd

/-- The scan loop inserts only catalog keys into `running`. -/
theorem scanLoop_keys_in_games (games : Catalog) (now : Nat) (scan : List String) :
    ∀ (nowR : List String) (running : Running),
      (∀ q ∈ running, (alookup games q.1).isSome = true) →
      ∀ q ∈ (scanLoop games now scan nowR running).2.1,
        (alookup games q.1).isSome = true := by
  induction scan with
  | nil => intro _ _ h; exact h
  | cons p rest ih =>
    intro nowR running hall
    simp only [scanLoop]
    by_cases h1 : (alookup games (strLower p)).isSome = true
    · rw [if_pos h1]
      by_cases h2 : alookup running (strLower p) = none
      · rw [if_pos h2]
        simp only [addStart]
        refine ih _ _ ?_
        intro q hq
        rcases List.mem_append.mp hq with hq' | hq'
        · exact hall q hq'
        · obtain rfl : q = ((strLower p), now) := by simpa using hq'
          exact h1
      · rw [if_neg h2]
        exact ih _ _ hall
    · rw [if_neg h1]
      exact ih _ _ hall

/-- `_record` cannot raise `KeyError` when its filename is a catalog key. -/
theorem record_isSome {games : Catalog} {e : String} (fmtTs fmtDate : Nat → String)
    (s dur n : Nat) (doc : Doc) (h : (alookup games e).isSome = true) :
    (record games fmtTs fmtDate e s dur n doc).isSome = true := by
  obtain ⟨g, hg⟩ := Option.isSome_iff_exists.mp h
  rw [record_eq_of_lookup fmtTs fmtDate s dur n doc hg]
  rfl

/-- The stop loop keeps exactly the entries still observed in
`now_running`, in order. -/
theorem stopLoop_running (games : Catalog) (fmtTs fmtDate : Nat → String)
    (now : Nat) (nowRunning : List String) :
    ∀ (l : Running) (doc : Doc) {res : Running × List Event × Doc},
      stopLoop games fmtTs fmtDate now nowRunning l doc = some res →
      res.1 = l.filter (fun q => decide (q.1 ∈ nowRunning)) := by
  intro l
  induction l with
  | nil =>
    intro doc res h
    simp only [stopLoop, Option.some.injEq] at h
    subst h
    rfl
  | cons q rest ih =>
    obtain ⟨exe, ts⟩ := q
    intro doc res h
    simp only [stopLoop] at h
    by_cases hm : exe ∈ nowRunning
    · rw [if_pos hm] at h
      split at h
      · exact Option.noConfusion h
      · rename_i r hs
        simp only [Option.some.injEq] at h
        subst h
        rw [List.filter_cons, if_pos (by simpa using hm)]
        exact congrArg (List.cons (exe, ts)) (ih _ hs)
    · rw [if_neg hm] at h
      split at h
      · exact Option.noConfusion h
      · rename_i doc2 hr
        split at h
        · exact Option.noConfusion h
        · rename_i r hs
          simp only [Option.some.injEq] at h
          subst h
          rw [List.filter_cons, if_neg (by simpa using hm)]
          have h1 := ih _ hs
          exact h1

/-- The stop loop's events are, in order, one stop per entry no longer
observed, carrying its start time and `now - start` as duration. -/
theorem stopLoop_events (games : Catalog) (fmtTs fmtDate : Nat → String)
    (now : Nat) (nowRunning : List String) :
    ∀ (l : Running) (doc : Doc) {res : Running × List Event × Doc},
      stopLoop games fmtTs fmtDate now nowRunning l doc = some res →
      res.2.1 = (l.filter (fun q => !decide (q.1 ∈ nowRunning))).map
        (fun q => Event.stopped q.1 q.2 (now - q.2)) := by
  intro l
  induction l with
  | nil =>
    intro doc res h
    simp only [stopLoop, Option.some.injEq] at h
    subst h
    rfl
  | cons q rest ih =>
    obtain ⟨exe, ts⟩ := q
    intro doc res h
    simp only [stopLoop] at h
    by_cases hm : exe ∈ nowRunning
    · rw [if_pos hm] at h
      split at h
      · exact Option.noConfusion h
      · rename_i r hs
        simp only [Option.some.injEq] at h
        subst h
        rw [List.filter_cons, if_neg (by simpa using hm)]
        have h1 := ih _ hs
        exact h1
    · rw [if_neg hm] at h
      split at h
      · exact Option.noConfusion h
      · rename_i doc2 hr
        split at h
        · exact Option.noConfusion h
        · rename_i r hs
          simp only [Option.some.injEq] at h
          subst h
          rw [List.filter_cons, if_pos (by simpa using hm)]
          exact congrArg (List.cons (Event.stopped exe ts (now - ts))) (ih _ hs)

/-- When every walked entry is a catalog key, the stop loop cannot fail. -/
theorem stopLoop_isSome (games : Catalog) (fmtTs fmtDate : Nat → String)
    (now : Nat) (nowRunning : List String) :
    ∀ (l : Running) (doc : Doc),
      (∀ q ∈ l, (alookup games q.1).isSome = true) →
      (stopLoop games fmtTs fmtDate now nowRunning l doc).isSome = true := by
  intro l
  induction l with
  | nil => intro doc _; rfl
  | cons q rest ih =>
    obtain ⟨exe, ts⟩ := q
    intro doc hall
    simp only [stopLoop]
    by_cases hm : exe ∈ nowRunning
    · rw [if_pos hm]
      have hrest := ih doc (fun q hq => hall q (List.mem_cons_of_mem _ hq))
      split
      · rename_i hs
        rw [hs] at hrest
        exact absurd hrest (by simp)
      · rfl
    · rw [if_neg hm]
      have hg : (alookup games exe).isSome = true :=
        hall (exe, ts) (List.mem_cons_self _ _)
      split
      · rename_i hr
        have hrec := record_isSome fmtTs fmtDate ts (now - ts) now doc hg
        rw [hr] at hrec
        exact absurd hrec (by simp)
      · rename_i doc2 hr
        have hrest := ih doc2 (fun q hq => hall q (List.mem_cons_of_mem _ hq))
        split
        · rename_i hs
          rw [hs] at hrest
          exact absurd hrest (by simp)
        · rfl

/-- Unfolding a successful `tick` into its scan and stop parts. -/
theorem tick_eq_some {games : Catalog} {fmtTs fmtDate : Nat → String}
    {scan : List String} {now : Nat} {running : Running} {doc : Doc}
    {res : Running × List Event × Doc}
    (h : tick games fmtTs fmtDate scan now running doc = some res) :
    ∃ r, stopLoop games fmtTs fmtDate now (scanLoop games now scan [] running).1
        (scanLoop games now scan [] running).2.1 doc = some r ∧
      res = (r.1, (scanLoop games now scan [] running).2.2 ++ r.2.1, r.2.2) := by
  unfold tick at h
  cases hs : stopLoop games fmtTs fmtDate now (scanLoop games now scan [] running).1
      (scanLoop games now scan [] running).2.1 doc with
  | none => rw [hs] at h; exact absurd h (by simp)
  | some r =>
    rw [hs] at h
    simp only [Option.some.injEq] at h
    exact ⟨r, rfl, h.symm⟩

theorem alookup_filter_mem {α : Type} (l : List (String × α)) (nowR : List String)
    {e : String} (h : e ∈ nowR) :
    alookup (l.filter fun q => decide (q.1 ∈ nowR)) e = alookup l e :=
  alookup_filter_pos l (fun x => decide (x ∈ nowR)) (decide_eq_true h)

theorem alookup_filter_not_mem {α : Type} (l : List (String × α)) (nowR : List String)
    {e : String} (h : e ∉ nowR) :
    alookup (l.filter fun q => decide (q.1 ∈ nowR)) e = none :=
  alookup_filter_neg l (fun x => decide (x ∈ nowR)) (decide_eq_false h)

/-- Stop events contain no start events. -/
theorem count_started_in_stop_map (l : Running) (now : Nat) (e : String) :
    (l.map (fun q => Event.stopped q.1 q.2 (now - q.2))).count (Event.started e) = 0 := by
  rw [List.count_eq_zero]
  intro hm
  obtain ⟨q, _, hq⟩ := List.mem_map.mp hm
  exact Event.noConfusion hq

/-- A stop event occurs once per `running` entry it came from. -/
theorem count_stopped_in_stop_map (l : Running) (now : Nat) {e : String} {ts : Nat}
    (hnd : l.Nodup) (hmem : (e, ts) ∈ l) :
    (l.map (fun q => Event.stopped q.1 q.2 (now - q.2))).count
      (Event.stopped e ts (now - ts)) = 1 := by
  have hf : Function.Injective (fun q : String × Nat => Event.stopped q.1 q.2 (now - q.2)) := by
    intro a b hab
    obtain ⟨a1, a2⟩ := a
    obtain ⟨b1, b2⟩ := b
    injection hab with h1 h2 h3
    subst h1
    subst h2
    rfl
  have h1 := List.count_map_of_injective l
    (fun q : String × Nat => Event.stopped q.1 q.2 (now - q.2)) hf (e, ts)
  exact h1.trans (List.count_eq_one_of_mem hnd hmem)

/-- A tick observing a catalog filename not yet in `running` emits exactly
one start event for it and leaves it in `running` bound to the tick's time. -/
theorem tick_starts {games : Catalog} {fmtTs fmtDate : Nat → String}
    {scan : List String} {now : Nat} {running : Running} {doc : Doc}
    {r' : Running} {evs : List Event} {doc' : Doc} {e : String}
    (hg : (alookup games e).isSome = true)
    (hobs : e ∈ scan.map strLower)
    (habs : alookup running e = none)
    (ht : tick games fmtTs fmtDate scan now running doc = some (r', evs, doc')) :
    evs.count (Event.started e) = 1 ∧ alookup r' e = some now := by
  obtain ⟨r, hs, hres⟩ := tick_eq_some ht
  injection hres with h1 h2
  injection h2 with h2 h3
  subst h1
  subst h2
  have hm : e ∈ (scanLoop games now scan [] running).1 :=
    scanLoop_mem_nowRunning games now scan [] running hg hobs
  have hlook : alookup (scanLoop games now scan [] running).2.1 e = some now :=
    scanLoop_inserts games now scan [] running hg hobs habs
  constructor
  · rw [List.count_append]
    rw [scanLoop_count_start games now scan [] running hg hobs habs]
    rw [stopLoop_events games fmtTs fmtDate now _ _ doc hs,
      count_started_in_stop_map]
  · rw [stopLoop_running games fmtTs fmtDate now _ _ doc hs,
      alookup_filter_mem _ _ hm]
    exact hlook

/-- A tick observing a catalog filename already in `running` emits no start
event for it and keeps its recorded start time. -/
theorem tick_keeps {games : Catalog} {fmtTs fmtDate : Nat → String}
    {scan : List String} {now : Nat} {running : Running} {doc : Doc}
    {r' : Running} {evs : List Event} {doc' : Doc} {e : String} {t : Nat}
    (hg : (alookup games e).isSome = true)
    (hobs : e ∈ scan.map strLower)
    (hrun : alookup running e = some t)
    (ht : tick games fmtTs fmtDate scan now running doc = some (r', evs, doc')) :
    evs.count (Event.started e) = 0 ∧ alookup r' e = some t := by
  obtain ⟨r, hs, hres⟩ := tick_eq_some ht
  injection hres with h1 h2
  injection h2 with h2 h3
  subst h1
  subst h2
  have hm : e ∈ (scanLoop games now scan [] running).1 :=
    scanLoop_mem_nowRunning games now scan [] running hg hobs
  constructor
  · rw [List.count_append]
    rw [List.count_eq_zero.mpr
      (scanLoop_no_restart games now scan [] running (by rw [hrun]; simp))]
    rw [stopLoop_events games fmtTs fmtDate now _ _ doc hs,
      count_started_in_stop_map]
  · rw [stopLoop_running games fmtTs fmtDate now _ _ doc hs,
      alookup_filter_mem _ _ hm]
    exact scanLoop_preserved games now scan [] running hrun

/-- Across any sequence of ticks all observing a catalog filename already in
`running`, no start event is emitted and the recorded start time survives. -/
theorem runTicks_keeps {games : Catalog} {fmtTs fmtDate : Nat → String}
    {e : String} (hg : (alookup games e).isSome = true) :
    ∀ (ticks : List (List String × Nat)) (running : Running) (doc : Doc) {t : Nat}
      {rf : Running} {evs : List Event} {docf : Doc},
      (∀ tk ∈ ticks, e ∈ tk.1.map strLower) →
      alookup running e = some t →
      runTicks games fmtTs fmtDate ticks running doc = some (rf, evs, docf) →
      evs.count (Event.started e) = 0 ∧ alookup rf e = some t := by
  intro ticks
  induction ticks with
  | nil =>
    intro running doc t rf evs docf _ hrun h
    simp only [runTicks, Option.some.injEq] at h
    injection h with h1 h2
    injection h2 with h2 h3
    subst h1
    subst h2
    exact ⟨rfl, hrun⟩
  | cons tk rest ih =>
    obtain ⟨scan, now⟩ := tk
    intro running doc t rf evs docf hobs hrun h
    simp only [runTicks] at h
    split at h
    · exact Option.noConfusion h
    · rename_i res htk
      split at h
      · exact Option.noConfusion h
      · rename_i fin hrt
        simp only [Option.some.injEq] at h
        injection h with h1 h2
        injection h2 with h2 h3
        subst h1
        subst h2
        obtain ⟨r1, e1, d1⟩ := res
        obtain ⟨c0, c1⟩ := tick_keeps hg
          (hobs (scan, now) (List.mem_cons_self _ _)) hrun htk
        obtain ⟨fin1, fin2, fin3⟩ := fin
        obtain ⟨c2, c3⟩ := ih r1 d1
          (fun q hq => hobs q (List.mem_cons_of_mem _ hq)) c1 hrt
        exact ⟨by rw [List.count_append, c0, c2], c3⟩

/-- C8: the duration formatter is pure and satisfies the spec's rule and all
six quoted examples: `format(0)="0s"`, `format(45)="45s"`, `format(120)="2m"`,
`format(3661)="1h1m1s"`, `format(7200)="2h0m"`, `format(-5)="0s"`, and any
non-integer input gives `"0s"`. -/
theorem format_playtime_spec :
    (∀ x : PyTime, format_playtime x = format_spec x) ∧
    format_playtime (PyTime.int 0) = "0s" ∧
    format_playtime (PyTime.int 45) = "45s" ∧
    format_playtime (PyTime.int 120) = "2m" ∧
    format_playtime (PyTime.int 3661) = "1h1m1s" ∧
    format_playtime (PyTime.int 7200) = "2h0m" ∧
    format_playtime (PyTime.int (-5)) = "0s" ∧
    format_playtime PyTime.notInt = "0s" := by
  refine ⟨?_, by decide, by decide, by decide, by decide, by decide, by decide, by decide⟩
  intro x
  cases x with
  | notInt => rfl
  | int n =>
    simp only [format_playtime, format_spec]
    split
    · rfl
    · have hrem : n.toNat % 3600 % 60 = n.toNat % 60 :=
        Nat.mod_mod_of_dvd _ (by norm_num)
      simp only [hrem]
      split
      · rcases eq_or_ne (n.toNat % 60) 0 with h0 | h0
        · simp [h0]
        · simp [h0, beq_iff_eq, String.append_assoc]
      · split
        · rcases eq_or_ne (n.toNat % 60) 0 with h0 | h0
          · simp [h0]
          · simp [h0, beq_iff_eq, String.append_assoc]
        · rfl

/-- C3: recording two sessions of durations `a` and `b` for the same
(date, display name), from a document where that cell is absent or
well-formed, yields `total = previous total + a + b`; the total never
decreases across either merge, and after each merge `last_open`/`last_close`
are the formatted start and end of the most recently completed session. -/
theorem record_two_sessions {games : Catalog} (fmtTs fmtDate : Nat → String)
    {e₁ e₂ : String} {g₁ g₂ : CatalogEntry}
    (s₁ s₂ a b n₁ n₂ : Nat) (doc₀ : Doc)
    (h₁ : alookup games e₁ = some g₁) (h₂ : alookup games e₂ = some g₂)
    (hname : g₂.name = g₁.name) (hdate : fmtDate n₂ = fmtDate n₁) :
    ∃ doc₁ doc₂,
      record games fmtTs fmtDate e₁ s₁ a n₁ doc₀ = some doc₁ ∧
      record games fmtTs fmtDate e₂ s₂ b n₂ doc₁ = some doc₂ ∧
      alookup2 doc₁ (fmtDate n₁) g₁.name =
        some { total := (prevRecord doc₀ (fmtDate n₁) g₁.name).total + (a : Int),
               last_open := some (fmtTs s₁), last_close := some (fmtTs n₁) } ∧
      alookup2 doc₂ (fmtDate n₁) g₁.name =
        some { total := (prevRecord doc₀ (fmtDate n₁) g₁.name).total + (a : Int) + (b : Int),
               last_open := some (fmtTs s₂), last_close := some (fmtTs n₂) } ∧
      (prevRecord doc₀ (fmtDate n₁) g₁.name).total ≤
        (prevRecord doc₀ (fmtDate n₁) g₁.name).total + (a : Int) ∧
      (prevRecord doc₀ (fmtDate n₁) g₁.name).total + (a : Int) ≤
        (prevRecord doc₀ (fmtDate n₁) g₁.name).total + (a : Int) + (b : Int) := by
  obtain ⟨doc₁, hr₁, hl₁, _, _⟩ := record_spec fmtTs fmtDate s₁ a n₁ doc₀ h₁
  obtain ⟨doc₂, hr₂, hl₂, _, _⟩ := record_spec fmtTs fmtDate s₂ b n₂ doc₁ h₂
  rw [hdate, hname] at hl₂
  rw [prevRecord_of_alookup2 hl₁] at hl₂
  exact ⟨doc₁, doc₂, hr₁, hr₂, hl₁, hl₂, by omega, by omega⟩

/-- Witness for C3: two sessions of 30 s and 50 s on the same day. -/
theorem record_two_sessions_witness :
    ∃ doc₁ doc₂,
      record gamesEx fmtTsEx fmtDateEx "game.exe" 100 30 130 [] = some doc₁ ∧
      record gamesEx fmtTsEx fmtDateEx "game.exe" 200 50 250 doc₁ = some doc₂ ∧
      alookup2 doc₁ (fmtDateEx 130) entryEx.name =
        some { total := (prevRecord [] (fmtDateEx 130) entryEx.name).total + (30 : Int),
               last_open := some (fmtTsEx 100), last_close := some (fmtTsEx 130) } ∧
      alookup2 doc₂ (fmtDateEx 130) entryEx.name =
        some { total := (prevRecord [] (fmtDateEx 130) entryEx.name).total + (30 : Int) + (50 : Int),
               last_open := some (fmtTsEx 200), last_close := some (fmtTsEx 250) } ∧
      (prevRecord [] (fmtDateEx 130) entryEx.name).total ≤
        (prevRecord [] (fmtDateEx 130) entryEx.name).total + (30 : Int) ∧
      (prevRecord [] (fmtDateEx 130) entryEx.name).total + (30 : Int) ≤
        (prevRecord [] (fmtDateEx 130) entryEx.name).total + (30 : Int) + (50 : Int) :=
  record_two_sessions fmtTsEx fmtDateEx 100 200 30 50 130 250 []
    (by decide) (by decide) rfl rfl

/-- C6: the date bucket of a merged session is the current date at merge
(completion) time `fmtDate now` — independent of the start timestamp — the
session is stored there, and every other date key is untouched. -/
theorem record_uses_completion_date {games : Catalog} (fmtTs fmtDate : Nat → String)
    {e : String} {g : CatalogEntry} (s dur n : Nat) (doc : Doc)
    (h : alookup games e = some g) :
    ∃ doc', record games fmtTs fmtDate e s dur n doc = some doc' ∧
      (alookup doc' (fmtDate n)).isSome = true ∧
      alookup2 doc' (fmtDate n) g.name =
        some { total := (prevRecord doc (fmtDate n) g.name).total + (dur : Int),
               last_open := some (fmtTs s), last_close := some (fmtTs n) } ∧
      (∀ d, d ≠ fmtDate n → alookup doc' d = alookup doc d) := by
  obtain ⟨doc', h1, h2, h3, _⟩ := record_spec fmtTs fmtDate s dur n doc h
  refine ⟨doc', h1, ?_, h2, h3⟩
  unfold alookup2 at h2
  cases hdd : alookup doc' (fmtDate n) with
  | none => rw [hdd] at h2; exact absurd h2 (by simp)
  | some m => rfl

/-- Witness for C6: a session starting at second 86399 (one day) and merged
at second 86401 (the next day) lands under the completion day's bucket,
which differs from the start day's. -/
theorem record_uses_completion_date_witness :
    fmtDateEx 86399 ≠ fmtDateEx 86401 ∧
    (∃ doc', record gamesEx fmtTsEx fmtDateEx "game.exe" 86399 2 86401 docEx = some doc' ∧
      (alookup doc' (fmtDateEx 86401)).isSome = true ∧
      alookup2 doc' (fmtDateEx 86401) entryEx.name =
        some { total := (prevRecord docEx (fmtDateEx 86401) entryEx.name).total + (2 : Int),
               last_open := some (fmtTsEx 86399), last_close := some (fmtTsEx 86401) } ∧
      (∀ d, d ≠ fmtDateEx 86401 → alookup doc' d = alookup docEx d)) :=
  ⟨by decide, record_uses_completion_date fmtTsEx fmtDateEx 86399 2 86401 docEx (by decide)⟩

/-- C9: merging one session for (date `fmtDate now`, game `g.name`) leaves
every other (date, game) cell of the document exactly as loaded, and deletes
no existing date or game entry. -/
theorem record_frame {games : Catalog} (fmtTs fmtDate : Nat → String)
    {e : String} {g : CatalogEntry} (s dur n : Nat) (doc : Doc)
    (h : alookup games e = some g) :
    ∃ doc', record games fmtTs fmtDate e s dur n doc = some doc' ∧
      (∀ d q, ¬(d = fmtDate n ∧ q = g.name) → alookup2 doc' d q = alookup2 doc d q) ∧
      (∀ d q r, alookup2 doc d q = some r → (alookup2 doc' d q).isSome = true) := by
  obtain ⟨doc', h1, h2, h3, h4⟩ := record_spec fmtTs fmtDate s dur n doc h
  have hframe : ∀ d q, ¬(d = fmtDate n ∧ q = g.name) →
      alookup2 doc' d q = alookup2 doc d q := by
    intro d q hdq
    by_cases hd : d = fmtDate n
    · subst hd
      exact h4 q (fun hh => hdq ⟨rfl, hh⟩)
    · rw [alookup2_eq, alookup2_eq, h3 d hd]
  refine ⟨doc', h1, hframe, ?_⟩
  intro d q r hr
  by_cases hdq : d = fmtDate n ∧ q = g.name
  · obtain ⟨hd, hq⟩ := hdq
    subst hd
    subst hq
    rw [h2]
    rfl
  · rw [hframe d q hdq, hr]
    rfl

/-- C4: whenever the backing file is missing, unreadable, empty, or holds
unparseable content — that is, whenever reading does not produce a string
the parser accepts — `_load` returns the empty document and takes the
warning branch; its return type carries no error, so nothing is raised to
the caller. -/
theorem load_empty_on_failure (readRes : Except String String)
    (parse : String → Except String Doc)
    (h : ∀ s, readRes = Except.ok s → ∃ e, parse s = Except.error e) :
    load readRes parse = ([], true) := by
  cases readRes with
  | error e => rfl
  | ok s =>
    obtain ⟨e, he⟩ := h s rfl
    simp only [load, he]

/-- Witness for C4: an empty file content that `json.loads` rejects. -/
theorem load_empty_on_failure_witness :
    load (Except.ok "") parseFailEx = ([], true) :=
  load_empty_on_failure (Except.ok "") parseFailEx
    (fun _ _ => ⟨"invalid json", rfl⟩)

/-- Counterexample to C5 as stated: a write that fails after `write_text`
has already truncated the file is a failing save (error logged, nothing
raised) after which the disk no longer holds the prior content. -/
theorem save_not_atomic_cex :
    (save dumpsEx [] (some "prior") (WriteOutcome.errMidWrite "")).2.2 = true ∧
    (save dumpsEx [] (some "prior") (WriteOutcome.errMidWrite "")).2.1 = false ∧
    (save dumpsEx [] (some "prior") (WriteOutcome.errMidWrite "")).1 ≠ some "prior" := by
  refine ⟨rfl, rfl, ?_⟩
  decide

/-- C5 amended: `_save` never raises to the caller; every failing write is
logged as an error; the prior on-disk content is unchanged when the failure
precedes any modification of the file (and a successful save leaves the
serialized document) — but a failure mid-write may leave other content. -/
theorem save_error_handling (dumps : Doc → String) (data : Doc)
    (prior : Option String) (o : WriteOutcome) :
    (save dumps data prior o).2.1 = false ∧
    (o ≠ WriteOutcome.ok → (save dumps data prior o).2.2 = true) ∧
    (o = WriteOutcome.errBeforeWrite → (save dumps data prior o).1 = prior) ∧
    (o = WriteOutcome.ok → (save dumps data prior o).1 = some (dumps data)) := by
  cases o <;> simp [save, writeText]

/-- Witness for C5 (amended): a write refused before touching the file logs
an error and leaves the prior content. -/
theorem save_error_handling_witness :
    ((save dumpsEx [] (some "prior") WriteOutcome.errBeforeWrite).1 = some "prior") ∧
    ((save dumpsEx [] (some "prior") WriteOutcome.errBeforeWrite).2.2 = true) :=
  ⟨(save_error_handling dumpsEx [] (some "prior") WriteOutcome.errBeforeWrite).2.2.1 rfl,
   (save_error_handling dumpsEx [] (some "prior") WriteOutcome.errBeforeWrite).2.1
     (by decide)⟩

/-- C7: store initialization is idempotent — it always establishes the data
directory, writes `"\x7b\x7d"` only when the file is missing, and leaves any
existing file content (in particular non-empty content) unchanged, so a
second initialization changes nothing. -/
theorem initStore_idempotent (s : StoreFS) :
    initStore (initStore s) = initStore s ∧
    (initStore s).dirExists = true ∧
    (s.file = none → (initStore s).file = some "{}") ∧
    (∀ c, s.file = some c → (initStore s).file = some c) := by
  obtain ⟨d, f⟩ := s
  cases f <;> simp [initStore]

/-- Witness for C7: initializing over an existing non-empty file keeps its
content. -/
theorem initStore_idempotent_witness :
    (initStore { dirExists := false, file := some "nonempty content" }).file =
      some "nonempty content" :=
  (initStore_idempotent { dirExists := false, file := some "nonempty content" }).2.2.2
    "nonempty content" rfl

/-- Witness for C9: merging into a document that already holds an unrelated
record. -/
theorem record_frame_witness :
    ∃ doc', record gamesEx fmtTsEx fmtDateEx "game.exe" 100 30 130 docEx = some doc' ∧
      (∀ d q, ¬(d = fmtDateEx 130 ∧ q = entryEx.name) →
        alookup2 doc' d q = alookup2 docEx d q) ∧
      (∀ d q r, alookup2 docEx d q = some r → (alookup2 doc' d q).isSome = true) :=
  record_frame fmtTsEx fmtDateEx 100 30 130 docEx (by decide)

/-- Every reachable running-set contains only catalog keys. -/
theorem reachable_invariant {games : Catalog} {fmtTs fmtDate : Nat → String}
    {r : Running} (h : Reachable games fmtTs fmtDate r) :
    ∀ q ∈ r, (alookup games q.1).isSome = true := by
  induction h with
  | init => intro q hq; simp at hq
  | step hr ht ih =>
    rename_i r0 scan now doc res
    intro q hq
    obtain ⟨rr, hs, hres⟩ := tick_eq_some ht
    have hsub := stopLoop_running games fmtTs fmtDate now _ _ doc hs
    rw [hres] at hq
    have hq1 : q ∈ rr.1 := hq
    rw [hsub] at hq1
    exact scanLoop_keys_in_games games now scan [] r0 ih q
      (List.mem_of_mem_filter hq1)

/-- C10: in every reachable watcher state the running-set contains only
catalog keys (running ⊆ catalog), so the `self.games[exe]` lookups performed
when recording a stopped session always succeed: a tick from a reachable
state never fails. -/
theorem running_subset_catalog {games : Catalog} {fmtTs fmtDate : Nat → String}
    {r : Running} (h : Reachable games fmtTs fmtDate r) :
    (∀ e t, alookup r e = some t → (alookup games e).isSome = true) ∧
    (∀ scan now doc, (tick games fmtTs fmtDate scan now r doc).isSome = true) := by
  have inv := reachable_invariant h
  constructor
  · intro e t hl
    exact inv (e, t) (alookup_mem hl)
  · intro scan now doc
    unfold tick
    have hsome := stopLoop_isSome games fmtTs fmtDate now
      (scanLoop games now scan [] r).1 (scanLoop games now scan [] r).2.1 doc
      (scanLoop_keys_in_games games now scan [] r inv)
    split
    · rename_i hs
      rw [hs] at hsome
      exact absurd hsome (by simp)
    · rfl

/-- Witness for C10: a tick from the freshly constructed watcher state. -/
theorem running_subset_catalog_witness :
    (tick gamesEx fmtTsEx fmtDateEx ["Game.EXE"] 5 [] []).isSome = true :=
  (running_subset_catalog Reachable.init).2 ["Game.EXE"] 5 []

/-- C1: over any nonempty run of consecutive ticks that all observe a
catalog filename, starting from a state where it is not in `running`,
exactly one start event for it is emitted in total (one insertion, at the
first tick), and its recorded start time is the first tick's clock,
unchanged by the later ticks of the run. -/
theorem one_start_per_presence_run {games : Catalog} {fmtTs fmtDate : Nat → String}
    {e : String} {scan1 : List String} {now1 : Nat}
    {ticks : List (List String × Nat)} {running : Running} {doc : Doc}
    {rf : Running} {evs : List Event} {docf : Doc}
    (hg : (alookup games e).isSome = true)
    (habs : alookup running e = none)
    (hobs : ∀ tk ∈ (scan1, now1) :: ticks, e ∈ tk.1.map strLower)
    (hrun : runTicks games fmtTs fmtDate ((scan1, now1) :: ticks) running doc =
      some (rf, evs, docf)) :
    evs.count (Event.started e) = 1 ∧ alookup rf e = some now1 := by
  simp only [runTicks] at hrun
  split at hrun
  · exact Option.noConfusion hrun
  · rename_i res htk
    split at hrun
    · exact Option.noConfusion hrun
    · rename_i fin hrt
      simp only [Option.some.injEq] at hrun
      injection hrun with h1 h2
      injection h2 with h2 h3
      subst h1
      subst h2
      obtain ⟨r1, e1, d1⟩ := res
      obtain ⟨c0, c1⟩ := tick_starts hg
        (hobs (scan1, now1) (List.mem_cons_self _ _)) habs htk
      obtain ⟨fin1, fin2, fin3⟩ := fin
      obtain ⟨c2, c3⟩ := runTicks_keeps hg ticks r1 d1
        (fun q hq => hobs q (List.mem_cons_of_mem _ hq)) c1 hrt
      exact ⟨by rw [List.count_append, c0, c2], c3⟩

/-- Witness for C1: the filename is observed (in mixed case) by two
consecutive ticks; one start event in total, start time from the first
tick. -/
theorem one_start_per_presence_run_witness :
    ([Event.started "game.exe"].count (Event.started "game.exe") = 1) ∧
    alookup [("game.exe", 5)] "game.exe" = some 5 :=
  @one_start_per_presence_run gamesEx fmtTsEx fmtDateEx "game.exe" ["Game.EXE"] 5
    [(["game.exe"], 7)] [] [] [("game.exe", 5)] [Event.started "game.exe"] []
    (by decide) (by decide) (by decide) rfl

/-- C2: every stop event a tick emits comes from exactly one unmatched prior
start: the filename was in `running` with the event's start time, it is
removed from `running` by the tick, the recorded duration is the tick's
clock minus that start time, and the event is emitted exactly once. -/
theorem stop_event_pairing {games : Catalog} {fmtTs fmtDate : Nat → String}
    {scan : List String} {now : Nat} {running : Running} {doc : Doc}
    {r' : Running} {evs : List Event} {doc' : Doc} {e : String} {ts d : Nat}
    (hnd : (running.map Prod.fst).Nodup)
    (ht : tick games fmtTs fmtDate scan now running doc = some (r', evs, doc'))
    (hev : Event.stopped e ts d ∈ evs) :
    alookup running e = some ts ∧ d = now - ts ∧ alookup r' e = none ∧
    evs.count (Event.stopped e ts d) = 1 := by
  obtain ⟨r, hs, hres⟩ := tick_eq_some ht
  injection hres with h1 h2
  injection h2 with h2 h3
  subst h1
  subst h2
  have hnotscan : Event.stopped e ts d ∉ (scanLoop games now scan [] running).2.2 := by
    intro hm
    obtain ⟨x, hx⟩ := scanLoop_events_started games now scan [] running hm
    exact Event.noConfusion hx
  have hev' : Event.stopped e ts d ∈ r.2.1 := by
    rcases List.mem_append.mp hev with hcase | hcase
    · exact absurd hcase hnotscan
    · exact hcase
  have hT2 := stopLoop_events games fmtTs fmtDate now _ _ doc hs
  rw [hT2] at hev'
  obtain ⟨q, hqmem, hq⟩ := List.mem_map.mp hev'
  obtain ⟨qe, qts⟩ := q
  injection hq with hq1 hq2 hq3
  have hq1s := hq1.symm
  subst hq1s
  have hq2s := hq2.symm
  subst hq2s
  subst hq3
  have hqin : (e, ts) ∈ (scanLoop games now scan [] running).2.1 :=
    List.mem_of_mem_filter hqmem
  have hqpred := List.of_mem_filter hqmem
  have hnotnr : e ∉ (scanLoop games now scan [] running).1 := by
    simpa using hqpred
  have hnd1 := scanLoop_nodup games now scan [] running hnd
  have hl1 : alookup (scanLoop games now scan [] running).2.1 e = some ts :=
    alookup_of_mem_nodup hnd1 hqin
  have hl0 : alookup running e = some ts := by
    rw [← scanLoop_alookup_of_not_seen games now scan [] running hnotnr]
    exact hl1
  refine ⟨hl0, rfl, ?_, ?_⟩
  · rw [stopLoop_running games fmtTs fmtDate now _ _ doc hs]
    exact alookup_filter_not_mem _ _ hnotnr
  · rw [List.count_append, List.count_eq_zero.mpr hnotscan, hT2]
    have hndl : ((scanLoop games now scan [] running).2.1.filter
        (fun q => !decide (q.1 ∈ (scanLoop games now scan [] running).1))).Nodup :=
      (List.Nodup.of_map Prod.fst hnd1).filter _
    have hone := count_stopped_in_stop_map _ now hndl hqmem
    rw [hone]

/-- Witness for C2: a tick in which the single running game disappears from
the scan. -/
theorem stop_event_pairing_witness :
    alookup [("game.exe", 3)] "game.exe" = some 3 ∧ (7 : Nat) = 10 - 3 ∧
    alookup ([] : Running) "game.exe" = none ∧
    ([Event.stopped "game.exe" 3 7].count (Event.stopped "game.exe" 3 7) = 1) :=
  @stop_event_pairing gamesEx fmtTsEx fmtDateEx [] 10 [("game.exe", 3)] []
    [] [Event.stopped "game.exe" 3 7]
    [("0", [("Game", { total := 7, last_open := some "3", last_close := some "10" })])]
    "game.exe" 3 7 (by decide) rfl (by decide)

end SteamTracker
